import Mathlib

/-!
Shallow embedding of the movie recommendation engine of this repository
(app.py, migrate_data.py, models.py) and proofs about its ranking,
migration and error-handling behaviour.

Similarity scores are modelled as rationals (the ranking and selection
logic under verification is pure comparison/ordering logic and does not
depend on floating-point artefacts).  Python's `sorted(..., reverse=True)`
is a stable descending sort; it is modelled by a stable insertion sort
with the "goes before" relation `b.2 ≤ a.2`, which places every element
before all *later-listed* elements of equal score — exactly the
stability guarantee CPython documents for `list.sort`/`sorted`.
-/

/-- Model of Python `round(x, 4)` used for presentation of scores
(app.py lines 132 and 184).  Exact half-ties are rounded up here while
CPython rounds half to even; no theorem below depends on the behaviour
at exact half-ties, and the same function is used uniformly on both
sides of every comparison. -/
def roundTo4 (q : ℚ) : ℚ := (⌊q * 10000 + 1 / 2⌋ : ℚ) / 10000

/-- Embedding of `sorted(pairs, key=lambda x: x[1], reverse=True)`
(app.py line 172, migrate_data.py line 104): stable descending sort on
the score component. -/
def pySortDesc (l : List (Nat × ℚ)) : List (Nat × ℚ) :=
  l.insertionSort (fun a b => b.2 ≤ a.2)

/-- Row access `similarity_matrix[i]`. -/
def simRow (sim : List (List ℚ)) (i : Nat) : List ℚ := sim.getD i []

/-- Entry access `similarity_matrix[i][j]` (migrate_data.py line 189). -/
def simEntry (sim : List (List ℚ)) (i j : Nat) : ℚ := (simRow sim i).getD j 0

/-- Embedding of
`similarity_scores = sorted(list(enumerate(similarity_matrix[movie_index])), key=lambda x: x[1], reverse=True)`
(app.py lines 169 and 172, migrate_data.py lines 103-104). -/
def sortedSims (sim : List (List ℚ)) (i : Nat) : List (Nat × ℚ) :=
  pySortDesc (simRow sim i).enum

/-- Embedding of the slice `similarity_scores[1:11]` (app.py line 175,
migrate_data.py line 107): drop the first sorted entry, take the next
ten. -/
def topPairs (sim : List (List ℚ)) (i : Nat) : List (Nat × ℚ) :=
  ((sortedSims sim i).drop 1).take 10

/-- Embedding of `recommended_indices = [i[0] for i in similarity_scores[1:11]]`
(app.py line 175). -/
def recommendedIndices (sim : List (List ℚ)) (i : Nat) : List Nat :=
  (topPairs sim i).map Prod.fst

/-- Embedding of the pickle-path (dense in-memory) body of
`recommend_movies` (app.py lines 169-185).  Exactly as in the source,
the i-th output item is assembled from two separate lookups: the title
comes from `movie_data.iloc[recommended_indices[i]]['title']` and the
score from `similarity_scores[i + 1][1]`.  `movie_data.iloc[idx]['title']`
is title lookup by positional index, modelled by `List.getD` on the
title list. -/
def recommend_movies_pickle (movies : List String) (sim : List (List ℚ))
    (movieIndex : Nat) : List (String × ℚ) :=
  (List.range (recommendedIndices sim movieIndex).length).map fun i =>
    (movies.getD ((recommendedIndices sim movieIndex).getD i 0) "",
      roundTo4 ((sortedSims sim movieIndex).getD (i + 1) (0, 0)).2)

theorem length_sortedSims (sim : List (List ℚ)) (i : Nat) :
    (sortedSims sim i).length = (simRow sim i).length := by
  simp [sortedSims, pySortDesc, List.length_insertionSort, List.enum_length]

theorem length_topPairs (sim : List (List ℚ)) (i : Nat) :
    (topPairs sim i).length = min 10 ((simRow sim i).length - 1) := by
  simp [topPairs, List.length_take, List.length_drop, length_sortedSims]

/-- The two-lookup assembly of the source produces exactly the sorted
pairs `similarity_scores[1:11]`, each mapped to (title, rounded score). -/
theorem recommend_movies_pickle_eq_map (movies : List String)
    (sim : List (List ℚ)) (idx : Nat) :
    recommend_movies_pickle movies sim idx
      = (topPairs sim idx).map (fun p => (movies.getD p.1 "", roundTo4 p.2)) := by
  apply List.ext_getElem
  · simp [recommend_movies_pickle, recommendedIndices]
  · intro i h1 h2
    have hi : i < (topPairs sim idx).length := by
      simpa using h2
    have hlen : (recommendedIndices sim idx).length = (topPairs sim idx).length := by
      simp [recommendedIndices]
    have hi1 : i + 1 < (sortedSims sim idx).length := by
      have := length_topPairs sim idx
      have := length_sortedSims sim idx
      omega
    have hir : i < (List.range (recommendedIndices sim idx).length).length := by
      simp [hlen, hi]
    have hgi : (List.range (recommendedIndices sim idx).length)[i] = i := by
      simp
    have e1 : (recommendedIndices sim idx).getD i 0 = ((topPairs sim idx)[i]).1 := by
      rw [List.getD_eq_getElem _ _ (by omega : i < (recommendedIndices sim idx).length)]
      simp [recommendedIndices]
    have hdrop : i < ((sortedSims sim idx).drop 1).length := by
      simp [List.length_drop]
      omega
    have e2 : (sortedSims sim idx).getD (i + 1) (0, 0) = (topPairs sim idx)[i] := by
      rw [List.getD_eq_getElem _ _ hi1]
      have : (topPairs sim idx)[i] = ((sortedSims sim idx).drop 1)[i] := by
        simp [topPairs, List.getElem_take]
      rw [this, List.getElem_drop]
      simp only [Nat.add_comm]
    simp only [recommend_movies_pickle, List.getElem_map, hgi, e1, e2]

/-- C1 (code bug): with catalog ["A", "B"] and the all-ones similarity
matrix, asking for recommendations for index 1 (movie "B") returns
[("B", 1)] — the source movie itself is returned, and the distinct
movie "A" (index 0), whose score against the source is 1, is the entry
that got excluded.  The code drops the *first element of the sorted
list* (`similarity_scores[1:11]`) instead of excluding the pair whose
key equals the source key; with Python's stable sort, a distinct entry
of equal score and smaller index sorts before the self-pair and is the
one removed. -/
theorem recommend_pickle_returns_self_on_score_tie :
    recommend_movies_pickle ["A", "B"] [[1, 1], [1, 1]] 1 = [("B", 1)] := by
  rw [recommend_movies_pickle_eq_map]
  norm_num [topPairs, sortedSims, simRow, pySortDesc,
    List.insertionSort, List.orderedInsert, List.enum, List.enumFrom, roundTo4]
  rfl

/-- C4: when the similarity row of the source has one score per catalog
entry (a well-formed square matrix), the pickle path returns exactly 10
items if the catalog has at least 11 entries, and exactly N - 1 items
for a catalog of N < 11 entries. -/
theorem recommend_pickle_count (movies : List String) (sim : List (List ℚ))
    (idx : Nat) (hrow : (simRow sim idx).length = movies.length) :
    (11 ≤ movies.length → (recommend_movies_pickle movies sim idx).length = 10) ∧
    (movies.length < 11 →
      (recommend_movies_pickle movies sim idx).length = movies.length - 1) := by
  have h : (recommend_movies_pickle movies sim idx).length
      = min 10 (movies.length - 1) := by
    rw [recommend_movies_pickle_eq_map, List.length_map, length_topPairs, hrow]
  constructor <;> intro hN <;> omega

/-- Witness for C4 at a concrete 3-entry catalog: the result has
exactly 3 - 1 = 2 items. -/
theorem recommend_pickle_count_witness :
    (recommend_movies_pickle ["A", "B", "C"]
      [[1, 0, 0], [0, 1, 0], [0, 0, 1]] 0).length = 2 :=
  (recommend_pickle_count ["A", "B", "C"] [[1, 0, 0], [0, 1, 0], [0, 0, 1]] 0
    (by norm_num [simRow])).2 (by norm_num)

/-- Strict "comes before" order realised by the ranking step: strictly
higher score first; among equal scores, ascending original matrix
index (the order Python's stable sort preserves from `enumerate`). -/
def rankLt (a b : Nat × ℚ) : Prop := b.2 < a.2 ∨ (a.2 = b.2 ∧ a.1 < b.1)

theorem orderedInsert_pairwise_rankLt (x : Nat × ℚ) (l : List (Nat × ℚ))
    (hl : l.Pairwise rankLt) (hx : ∀ y ∈ l, x.1 < y.1) :
    (l.orderedInsert (fun a b => b.2 ≤ a.2) x).Pairwise rankLt := by
  induction l with
  | nil => simp [List.orderedInsert, rankLt]
  | cons y ys ih =>
    rw [List.orderedInsert]
    rcases List.pairwise_cons.mp hl with ⟨hy, hys⟩
    by_cases h : y.2 ≤ x.2
    · rw [if_pos h]
      refine List.pairwise_cons.mpr ⟨?_, hl⟩
      intro z hz
      rcases List.mem_cons.mp hz with rfl | hz
      · rcases lt_or_eq_of_le h with hlt | heq
        · exact Or.inl hlt
        · exact Or.inr ⟨heq.symm, hx z (List.mem_cons_self z ys)⟩
      · have hz2 : z.2 ≤ y.2 := by
          rcases hy z hz with hlt | ⟨heq, _⟩
          · exact le_of_lt hlt
          · exact le_of_eq heq.symm
        rcases lt_or_eq_of_le (le_trans hz2 h) with hlt | heq
        · exact Or.inl hlt
        · exact Or.inr ⟨heq.symm, hx z (List.mem_cons_of_mem y hz)⟩
    · rw [if_neg h]
      refine List.pairwise_cons.mpr ⟨?_, ?_⟩
      · intro z hz
        rcases (List.mem_orderedInsert _).mp hz with rfl | hz
        · exact Or.inl (lt_of_not_le h)
        · exact hy z hz
      · exact ih hys fun z hz => hx z (List.mem_cons_of_mem y hz)

theorem pySortDesc_pairwise_rankLt (l : List (Nat × ℚ))
    (hkeys : l.Pairwise fun a b => a.1 < b.1) :
    (pySortDesc l).Pairwise rankLt := by
  induction l with
  | nil => simp [pySortDesc, List.insertionSort]
  | cons x xs ih =>
    rcases List.pairwise_cons.mp hkeys with ⟨hx, hxs⟩
    rw [pySortDesc, List.insertionSort]
    exact orderedInsert_pairwise_rankLt x _ (ih hxs)
      fun y hy => hx y (by simpa using hy)

theorem enum_pairwise_keys (l : List ℚ) : l.enum.Pairwise fun a b => a.1 < b.1 := by
  have h : (l.enum.map Prod.fst).Pairwise (· < ·) := by
    rw [List.enum_map_fst]
    exact List.pairwise_lt_range _
  exact List.pairwise_map.mp h

theorem sortedSims_pairwise_rankLt (sim : List (List ℚ)) (i : Nat) :
    (sortedSims sim i).Pairwise rankLt :=
  pySortDesc_pairwise_rankLt _ (enum_pairwise_keys _)

theorem topPairs_sublist_sortedSims (sim : List (List ℚ)) (i : Nat) :
    (topPairs sim i).Sublist (sortedSims sim i) :=
  (List.take_sublist _ _).trans (List.drop_sublist _ _)

theorem topPairs_pairwise_rankLt (sim : List (List ℚ)) (i : Nat) :
    (topPairs sim i).Pairwise rankLt :=
  List.Pairwise.sublist (topPairs_sublist_sortedSims sim i) (sortedSims_pairwise_rankLt sim i)

theorem sortedSims_perm_enum (sim : List (List ℚ)) (i : Nat) :
    (sortedSims sim i).Perm (simRow sim i).enum :=
  List.perm_insertionSort _ _

/-- Every pair of the sorted row is an (index, score) pair of the
underlying row. -/
theorem mem_sortedSims {sim : List (List ℚ)} {i : Nat} {p : Nat × ℚ}
    (hp : p ∈ sortedSims sim i) :
    p.1 < (simRow sim i).length ∧ p.2 = (simRow sim i).getD p.1 0 := by
  have hmem : p ∈ (simRow sim i).enum := (sortedSims_perm_enum sim i).mem_iff.mp hp
  obtain ⟨a, b⟩ := p
  have h := List.mem_enum hmem
  refine ⟨h.1, ?_⟩
  rw [List.getD_eq_getElem _ _ h.1]
  exact h.2

theorem sortedSims_keys_nodup (sim : List (List ℚ)) (i : Nat) :
    ((sortedSims sim i).map Prod.fst).Nodup := by
  have hp : ((sortedSims sim i).map Prod.fst).Perm ((simRow sim i).enum.map Prod.fst) :=
    (sortedSims_perm_enum sim i).map _
  rw [hp.nodup_iff, List.enum_map_fst]
  exact List.nodup_range _

theorem topPairs_keys_nodup (sim : List (List ℚ)) (i : Nat) :
    ((topPairs sim i).map Prod.fst).Nodup :=
  List.Nodup.sublist ((topPairs_sublist_sortedSims sim i).map _) (sortedSims_keys_nodup sim i)

/-- C9: internal consistency of the pickle path — although the source
assembles the i-th item's title and score from two separate lookups
(`recommended_indices[i]` and `similarity_scores[i+1][1]`), they come
from the same sorted (index, score) pair, so the i-th item is exactly
(title of index j, round(similarity_matrix[source][j], 4)) for a single
index j of the source's row. -/
theorem recommend_pickle_item_consistent (movies : List String)
    (sim : List (List ℚ)) (idx i : Nat)
    (hi : i < (recommend_movies_pickle movies sim idx).length) :
    ∃ j, j < (simRow sim idx).length ∧
      (recommend_movies_pickle movies sim idx).get ⟨i, hi⟩
        = (movies.getD j "", roundTo4 ((simRow sim idx).getD j 0)) := by
  have hi2 : i < (topPairs sim idx).length := by
    have := hi
    rw [recommend_movies_pickle_eq_map, List.length_map] at this
    exact this
  have hp : (topPairs sim idx)[i] ∈ sortedSims sim idx :=
    (topPairs_sublist_sortedSims sim idx).subset (List.getElem_mem hi2)
  obtain ⟨hlt, hscore⟩ := mem_sortedSims hp
  refine ⟨((topPairs sim idx)[i]).1, hlt, ?_⟩
  rw [← hscore]
  have hi3 : i < ((topPairs sim idx).map
      fun p => (movies.getD p.1 "", roundTo4 p.2)).length := by
    rw [List.length_map]
    exact hi2
  have : (recommend_movies_pickle movies sim idx).get ⟨i, hi⟩
      = ((topPairs sim idx).map
          fun p => (movies.getD p.1 "", roundTo4 p.2)).get ⟨i, hi3⟩ := by
    simp only [List.get_eq_getElem]
    congr 1
    exact recommend_movies_pickle_eq_map movies sim idx
  rw [this]
  simp only [List.get_eq_getElem, List.getElem_map]

/-- Witness for C9 at a concrete input: item 0 of the recommendation
list for source 0 of a 3-entry catalog comes from a single row index. -/
theorem recommend_pickle_item_consistent_witness :
    ∃ j, j < (simRow [[1, 0, 0], [0, 1, 0], [0, 0, 1]] 0).length ∧
      (recommend_movies_pickle ["A", "B", "C"] [[1, 0, 0], [0, 1, 0], [0, 0, 1]] 0).get
          ⟨0, by rw [recommend_movies_pickle_eq_map]; norm_num [length_topPairs, simRow]⟩
        = (["A", "B", "C"].getD j "",
            roundTo4 ((simRow [[1, 0, 0], [0, 1, 0], [0, 0, 1]] 0).getD j 0)) :=
  recommend_pickle_item_consistent ["A", "B", "C"] [[1, 0, 0], [0, 1, 0], [0, 0, 1]] 0 0 _

/-- C8: determinism of the pickle path — the output is a pure function
of the catalog titles and the source's similarity row; two invocations
over the same catalog and the same similarity matrix return identical
ordered output (titles, rounded scores, and order). -/
theorem recommend_pickle_deterministic (movies₁ movies₂ : List String)
    (sim₁ sim₂ : List (List ℚ)) (idx : Nat)
    (hm : movies₁ = movies₂) (hrow : simRow sim₁ idx = simRow sim₂ idx) :
    recommend_movies_pickle movies₁ sim₁ idx
      = recommend_movies_pickle movies₂ sim₂ idx := by
  subst hm
  rw [recommend_movies_pickle_eq_map, recommend_movies_pickle_eq_map]
  unfold topPairs sortedSims
  rw [hrow]

/-- Witness for C8: two calls on the same concrete data agree. -/
theorem recommend_pickle_deterministic_witness :
    recommend_movies_pickle ["A", "B"] [[1, 0], [0, 1]] 0
      = recommend_movies_pickle ["A", "B"] [[1, 0], [0, 1]] 0 :=
  recommend_pickle_deterministic ["A", "B"] ["A", "B"] [[1, 0], [0, 1]] [[1, 0], [0, 1]] 0 rfl rfl

/-- Recommendation row of models.py (the columns the claims are about:
source movie id, recommended movie id, similarity score, rank). -/
structure RecRow where
  source_movie_id : Nat
  recommended_movie_id : Nat
  similarity_score : ℚ
  rank : Nat
deriving DecidableEq, Repr

/-- First index of a title in the catalog, or none when absent. -/
def titleIndex (t : String) : List String → Option Nat
  | [] => none
  | m :: ms => if m = t then some 0 else (titleIndex t ms).map (· + 1)

/-- Lookup in `movie_id_map = {movie.title: movie.id for movie in movies}`
(migrate_data.py lines 89-90 and 163-164), over a database freshly
populated by migrate_movies from a catalog of unique titles: catalog
entry k is inserted as the row with id k + 1, so dict lookup of a
unique title is the title's catalog index plus one.  Python's
`dict.get` returns None for an absent title, modelled by `Option`;
the source's `if not target_movie_id` test can only fire on None since
ids here are always positive. -/
def movieIdMap (movies : List String) (t : String) : Option Nat :=
  (titleIndex t movies).map (· + 1)

theorem titleIndex_getElem (movies : List String) (i : Nat)
    (hnd : movies.Nodup) (hi : i < movies.length) :
    titleIndex movies[i] movies = some i := by
  induction movies generalizing i with
  | nil => simp at hi
  | cons m ms ih =>
    rcases List.nodup_cons.mp hnd with ⟨hm, hms⟩
    cases i with
    | zero => simp [titleIndex]
    | succ k =>
      have hk : k < ms.length := by simpa using hi
      have hne : m ≠ ms[k] := fun h => hm (h ▸ List.getElem_mem hk)
      have : (m :: ms)[k + 1] = ms[k] := by simp
      rw [this, titleIndex, if_neg hne, ih k hms hk]
      rfl

theorem movieIdMap_getD (movies : List String) (i : Nat)
    (hnd : movies.Nodup) (hi : i < movies.length) :
    movieIdMap movies (movies.getD i "") = some (i + 1) := by
  rw [List.getD_eq_getElem _ _ hi, movieIdMap, titleIndex_getElem movies i hnd hi]
  rfl

/-- Inner loop of migrate_similarity_data (migrate_data.py lines
107-134): iterate over `enumerate(similarity_scores[1:11], 1)`; for
each (rank, (target_index, score)) resolve the target title through
the id map, skip it when the title is missing from the map or when a
(source, target) Recommendation already exists (SQLAlchemy autoflush
makes rows added earlier in the same run visible to this query), and
otherwise create a Recommendation row carrying the enumeration rank.
Returns the created rows in creation order together with the updated
set of (source id, target id) pairs present in the table. -/
def insertRecs (movies : List String) (srcId : Nat) :
    List (Nat × (Nat × ℚ)) → List (Nat × Nat) → List RecRow × List (Nat × Nat)
  | [], existing => ([], existing)
  | (rank, tIdx, score) :: rest, existing =>
    match movieIdMap movies (movies.getD tIdx "") with
    | none => insertRecs movies srcId rest existing
    | some tgtId =>
      if (srcId, tgtId) ∈ existing then insertRecs movies srcId rest existing
      else
        let out := insertRecs movies srcId rest ((srcId, tgtId) :: existing)
        (⟨srcId, tgtId, score, rank⟩ :: out.1, out.2)

/-- Body of the outer loop of migrate_similarity_data for catalog index
i (migrate_data.py lines 94-107): resolve the source title, sort the
source's similarity row descending by score, and process the slice
`similarity_scores[1:11]` with 1-based ranks. -/
def recsForSource (movies : List String) (sim : List (List ℚ))
    (existing : List (Nat × Nat)) (i : Nat) : List RecRow × List (Nat × Nat) :=
  match movieIdMap movies (movies.getD i "") with
  | none => ([], existing)
  | some srcId => insertRecs movies srcId (List.enumFrom 1 (topPairs sim i)) existing

/-- Outer loop of migrate_similarity_data over the catalog indices,
threading the set of existing (source, target) pairs. -/
def migrateGo (movies : List String) (sim : List (List ℚ)) :
    List Nat → List (Nat × Nat) → List RecRow
  | [], _ => []
  | i :: rest, existing =>
    let out := recsForSource movies sim existing i
    out.1 ++ migrateGo movies sim rest out.2

/-- migrate_similarity_data (migrate_data.py lines 85-157) run against
a database freshly populated by migrate_movies (the recommendations
table starts empty): the list of Recommendation rows it commits, in
creation order. -/
def migrate_similarity_data (movies : List String) (sim : List (List ℚ)) :
    List RecRow :=
  migrateGo movies sim (List.range movies.length) []

/-- Row constructor used by the characterisation of the migration: the
rank-annotated pair (rank, (target index, score)) for source i becomes
a Recommendation row with ids index + 1. -/
def mkRecRow (i : Nat) (q : Nat × (Nat × ℚ)) : RecRow :=
  ⟨i + 1, q.2.1 + 1, q.2.2, q.1⟩

theorem insertRecs_existing_mem (movies : List String) (srcId : Nat)
    (pairs : List (Nat × (Nat × ℚ))) (existing : List (Nat × Nat))
    (p : Nat × Nat) (hp : p ∈ (insertRecs movies srcId pairs existing).2) :
    p.1 = srcId ∨ p ∈ existing := by
  induction pairs generalizing existing with
  | nil => exact Or.inr hp
  | cons q rest ih =>
    obtain ⟨rank, tIdx, score⟩ := q
    rcases h : movieIdMap movies (movies.getD tIdx "") with _ | tgtId
    · rw [insertRecs, h] at hp
      exact ih existing hp
    · rw [insertRecs, h] at hp
      dsimp only at hp
      by_cases hmem : (srcId, tgtId) ∈ existing
      · rw [if_pos hmem] at hp
        exact ih existing hp
      · rw [if_neg hmem] at hp
        rcases ih _ hp with h1 | h1
        · exact Or.inl h1
        · rcases List.mem_cons.mp h1 with rfl | h2
          · exact Or.inl rfl
          · exact Or.inr h2

theorem insertRecs_eq (movies : List String) (srcId : Nat)
    (pairs : List (Nat × (Nat × ℚ))) (existing : List (Nat × Nat))
    (hres : ∀ q ∈ pairs, movieIdMap movies (movies.getD q.2.1 "") = some (q.2.1 + 1))
    (hnd : (pairs.map fun q => q.2.1).Nodup)
    (hex : ∀ q ∈ pairs, (srcId, q.2.1 + 1) ∉ existing) :
    (insertRecs movies srcId pairs existing).1
      = pairs.map fun q => (⟨srcId, q.2.1 + 1, q.2.2, q.1⟩ : RecRow) := by
  induction pairs generalizing existing with
  | nil => rfl
  | cons q rest ih =>
    obtain ⟨rank, tIdx, score⟩ := q
    have hq : ((rank, tIdx, score) : Nat × (Nat × ℚ)) ∈ (rank, tIdx, score) :: rest :=
      List.mem_cons_self _ _
    have h1 := hres _ hq
    simp only at h1
    rw [insertRecs, h1]
    dsimp only
    rw [if_neg (hex _ hq)]
    rw [List.map_cons] at hnd
    rcases List.nodup_cons.mp hnd with ⟨hhd, htl⟩
    have := ih ((srcId, tIdx + 1) :: existing)
      (fun q hq => hres q (List.mem_cons_of_mem _ hq))
      htl
      (fun q hq => by
        intro hmem
        rcases List.mem_cons.mp hmem with heq | hmem2
        · have : q.2.1 = tIdx := by
            have := congrArg Prod.snd heq
            omega
          exact hhd (this ▸ List.mem_map_of_mem (fun q => q.2.1) hq)
        · exact hex q (List.mem_cons_of_mem _ hq) hmem2)
    simp only [List.map_cons]
    rw [← this]

theorem snd_mem_of_mem_enumFrom {α : Type} {q : Nat × α} {n : Nat} {l : List α}
    (hq : q ∈ List.enumFrom n l) : q.2 ∈ l := by
  obtain ⟨k, x⟩ := q
  obtain ⟨h1, h2, h3⟩ := List.mem_enumFrom hq
  exact h3 ▸ List.getElem_mem (by omega)

theorem enumFrom_map_snd_comp {α β : Type} (f : α → β) (n : Nat) (l : List α) :
    (List.enumFrom n l).map (fun q => f q.2) = l.map f := by
  induction l generalizing n with
  | nil => rfl
  | cons x xs ih => simp [List.enumFrom, ih]

theorem pairwise_enumFrom_snd {α : Type} {R : α → α → Prop} (n : Nat) (l : List α)
    (hl : l.Pairwise R) : (List.enumFrom n l).Pairwise fun a b => R a.2 b.2 := by
  have h2 : ((List.enumFrom n l).map Prod.snd).Pairwise R := by
    rw [List.enumFrom_map_snd]
    exact hl
  exact List.pairwise_map.mp h2

theorem pairwise_enumFrom_fst_lt {α : Type} (n : Nat) (l : List α) :
    (List.enumFrom n l).Pairwise fun a b => a.1 < b.1 := by
  have h : ((List.enumFrom n l).map Prod.fst).Pairwise (· < ·) := by
    rw [List.enumFrom_map_fst]
    exact List.pairwise_lt_range' n l.length 1 (by norm_num)
  exact List.pairwise_map.mp h

theorem recsForSource_eq (movies : List String) (sim : List (List ℚ))
    (existing : List (Nat × Nat)) (i : Nat)
    (hnd : movies.Nodup)
    (hrow : (simRow sim i).length = movies.length)
    (hi : i < movies.length)
    (hex : ∀ p ∈ existing, p.1 ≠ i + 1) :
    (recsForSource movies sim existing i).1
      = (List.enumFrom 1 (topPairs sim i)).map (mkRecRow i) := by
  rw [recsForSource, movieIdMap_getD movies i hnd hi]
  dsimp only
  rw [insertRecs_eq]
  · rfl
  · intro q hq
    have hq2 : q.2 ∈ topPairs sim i := snd_mem_of_mem_enumFrom hq
    have hq3 : q.2 ∈ sortedSims sim i := (topPairs_sublist_sortedSims sim i).subset hq2
    have hlt : q.2.1 < movies.length := by
      have := (mem_sortedSims hq3).1
      omega
    exact movieIdMap_getD movies q.2.1 hnd hlt
  · have heq : ((List.enumFrom 1 (topPairs sim i)).map fun q => q.2.1)
        = (topPairs sim i).map Prod.fst :=
      enumFrom_map_snd_comp Prod.fst 1 (topPairs sim i)
    rw [heq]
    exact topPairs_keys_nodup sim i
  · intro q hq hmem
    exact hex _ hmem rfl

theorem recsForSource_existing_mem (movies : List String) (sim : List (List ℚ))
    (existing : List (Nat × Nat)) (i : Nat) (p : Nat × Nat)
    (hnd : movies.Nodup) (hi : i < movies.length)
    (hp : p ∈ (recsForSource movies sim existing i).2) :
    p.1 = i + 1 ∨ p ∈ existing := by
  rw [recsForSource, movieIdMap_getD movies i hnd hi] at hp
  exact insertRecs_existing_mem _ _ _ _ _ hp

theorem migrateGo_eq (movies : List String) (sim : List (List ℚ))
    (hnd : movies.Nodup)
    (hsq : ∀ j, j < movies.length → (simRow sim j).length = movies.length)
    (is : List Nat) (existing : List (Nat × Nat))
    (his : ∀ i ∈ is, i < movies.length)
    (hisnd : is.Nodup)
    (hex : ∀ p ∈ existing, ∀ i ∈ is, p.1 ≠ i + 1) :
    migrateGo movies sim is existing
      = is.flatMap fun i => (List.enumFrom 1 (topPairs sim i)).map (mkRecRow i) := by
  induction is generalizing existing with
  | nil => rfl
  | cons i rest ih =>
    rcases List.nodup_cons.mp hisnd with ⟨hihd, hitl⟩
    have hi : i < movies.length := his i (List.mem_cons_self _ _)
    rw [migrateGo]
    rw [List.flatMap_cons,
      recsForSource_eq movies sim existing i hnd (hsq i hi) hi
        (fun p hp => hex p hp i (List.mem_cons_self _ _))]
    congr 1
    apply ih
    · exact fun j hj => his j (List.mem_cons_of_mem _ hj)
    · exact hitl
    · intro p hp j hj
      rcases recsForSource_existing_mem movies sim existing i p hnd hi hp with h1 | h1
      · rw [h1]
        intro hc
        have : j = i := by omega
        exact hihd (this ▸ hj)
      · exact hex p h1 j (List.mem_cons_of_mem _ hj)

theorem migrate_similarity_data_eq (movies : List String) (sim : List (List ℚ))
    (hnd : movies.Nodup)
    (hsq : ∀ j, j < movies.length → (simRow sim j).length = movies.length) :
    migrate_similarity_data movies sim
      = (List.range movies.length).flatMap
          fun i => (List.enumFrom 1 (topPairs sim i)).map (mkRecRow i) := by
  apply migrateGo_eq movies sim hnd hsq
  · exact fun i hi => List.mem_range.mp hi
  · exact List.nodup_range _
  · intro p hp
    cases hp

theorem flatMap_ite_eq_single {β : Type} (is : List Nat) (i : Nat)
    (hnd : is.Nodup) (hi : i ∈ is) (l : List β) :
    (is.flatMap fun j => if j = i then l else []) = l := by
  induction is with
  | nil => cases hi
  | cons a rest ih =>
    rw [List.flatMap_cons]
    rcases List.nodup_cons.mp hnd with ⟨ha, hrest⟩
    by_cases hai : a = i
    · rw [if_pos hai]
      have hnil : (rest.flatMap fun j => if j = i then l else []) = [] := by
        rw [List.flatMap_eq_nil_iff]
        intro j hj
        rw [if_neg]
        intro hji
        exact ha (by rw [hai, ← hji]; exact hj)
      rw [hnil, List.append_nil]
    · rw [if_neg hai, List.nil_append]
      apply ih hrest
      rcases List.mem_cons.mp hi with h | h
      · exact absurd h.symm hai
      · exact h

/-- The Recommendation rows the migration stores for source movie i
(queried back by `filter_by(source_movie_id=...)`) are exactly the
sorted slice `similarity_scores[1:11]` of the source's row, annotated
with ranks 1, 2, ... in order. -/
theorem migrate_filter_source (movies : List String) (sim : List (List ℚ))
    (i : Nat) (hnd : movies.Nodup)
    (hsq : ∀ j, j < movies.length → (simRow sim j).length = movies.length)
    (hi : i < movies.length) :
    (migrate_similarity_data movies sim).filter
        (fun r => r.source_movie_id == i + 1)
      = (List.enumFrom 1 (topPairs sim i)).map (mkRecRow i) := by
  rw [migrate_similarity_data_eq movies sim hnd hsq, List.filter_flatMap]
  have hchunk : ∀ j, (List.filter (fun r => r.source_movie_id == i + 1)
      ((List.enumFrom 1 (topPairs sim j)).map (mkRecRow j)))
      = if j = i then (List.enumFrom 1 (topPairs sim i)).map (mkRecRow i) else [] := by
    intro j
    by_cases hji : j = i
    · subst hji
      rw [if_pos rfl, List.filter_eq_self.mpr]
      intro a ha
      rcases List.mem_map.mp ha with ⟨q, _, rfl⟩
      simp [mkRecRow]
    · rw [if_neg hji, List.filter_eq_nil_iff.mpr]
      intro a ha
      rcases List.mem_map.mp ha with ⟨q, _, rfl⟩
      simp [mkRecRow]
      omega
  simp only [hchunk]
  exact flatMap_ite_eq_single _ i (List.nodup_range _) (List.mem_range.mpr hi) _

theorem pairwise_and_of {α : Type} {R S : α → α → Prop} {l : List α}
    (h1 : l.Pairwise R) (h2 : l.Pairwise S) :
    l.Pairwise fun a b => R a b ∧ S a b := by
  induction l with
  | nil => exact List.Pairwise.nil
  | cons x xs ih =>
    rcases List.pairwise_cons.mp h1 with ⟨hx1, hxs1⟩
    rcases List.pairwise_cons.mp h2 with ⟨hx2, hxs2⟩
    exact List.pairwise_cons.mpr ⟨fun y hy => ⟨hx1 y hy, hx2 y hy⟩, ih hxs1 hxs2⟩

theorem roundTo4_mono {a b : ℚ} (h : a ≤ b) : roundTo4 a ≤ roundTo4 b := by
  rw [roundTo4, roundTo4]
  have h1 : a * 10000 + 1 / 2 ≤ b * 10000 + 1 / 2 :=
    add_le_add_right (mul_le_mul_of_nonneg_right h (by norm_num)) _
  have h2 : ((⌊a * 10000 + 1 / 2⌋ : ℤ) : ℚ) ≤ ((⌊b * 10000 + 1 / 2⌋ : ℤ) : ℚ) := by
    exact_mod_cast Int.floor_le_floor h1
  exact (div_le_div_iff_of_pos_right (by norm_num)).mpr h2

/-- Embedding of the persisted-path database read (app.py lines 123-125):
`Recommendation.query.filter_by(source_movie_id=source_movie.id).order_by(Recommendation.rank).limit(10)`.
The order-by is modelled as a stable ascending sort on rank over the
stored rows. -/
def db_recommendations (rows : List RecRow) (srcId : Nat) : List RecRow :=
  ((rows.filter fun r => r.source_movie_id == srcId).insertionSort
      fun a b => a.rank ≤ b.rank).take 10

/-- Embedding of the persisted branch of recommend_movies (app.py lines
127-133): each row becomes {title of the recommended movie, score
rounded to 4 places}.  Under the fresh-migration id assignment the
title of the movie with database id m is the catalog title at index
m - 1. -/
def recommend_movies_db (movies : List String) (rows : List RecRow)
    (srcId : Nat) : List (String × ℚ) :=
  (db_recommendations rows srcId).map fun r =>
    (movies.getD (r.recommended_movie_id - 1) "", roundTo4 r.similarity_score)

theorem db_recommendations_migrate (movies : List String) (sim : List (List ℚ))
    (i : Nat) (hnd : movies.Nodup)
    (hsq : ∀ j, j < movies.length → (simRow sim j).length = movies.length)
    (hi : i < movies.length) :
    db_recommendations (migrate_similarity_data movies sim) (i + 1)
      = (List.enumFrom 1 (topPairs sim i)).map (mkRecRow i) := by
  rw [db_recommendations, migrate_filter_source movies sim i hnd hsq hi]
  have hsorted : List.Sorted (fun a b : RecRow => a.rank ≤ b.rank)
      ((List.enumFrom 1 (topPairs sim i)).map (mkRecRow i)) := by
    apply List.pairwise_map.mpr
    exact (pairwise_enumFrom_fst_lt 1 _).imp fun h => le_of_lt h
  rw [hsorted.insertionSort_eq]
  apply List.take_of_length_le
  rw [List.length_map, List.enumFrom_length]
  have := length_topPairs sim i
  omega

/-- C5: for every source movie of a unique-title catalog with a
well-formed square similarity matrix, the Recommendation rows the
migration pass persists for that source (in stored order) carry ranks
that are exactly the contiguous sequence 1, 2, ..., count, and the
stored similarity score is non-increasing as the rank increases. -/
theorem migrate_ranks_contiguous (movies : List String) (sim : List (List ℚ))
    (i : Nat) (hnd : movies.Nodup)
    (hsq : ∀ j, j < movies.length → (simRow sim j).length = movies.length)
    (hi : i < movies.length) :
    (((migrate_similarity_data movies sim).filter
        fun r => r.source_movie_id == i + 1).map fun r => r.rank)
      = List.range' 1 ((migrate_similarity_data movies sim).filter
          fun r => r.source_movie_id == i + 1).length ∧
    ((migrate_similarity_data movies sim).filter
        fun r => r.source_movie_id == i + 1).Pairwise
      fun a b => a.rank < b.rank ∧ b.similarity_score ≤ a.similarity_score := by
  rw [migrate_filter_source movies sim i hnd hsq hi]
  constructor
  · rw [List.map_map, List.length_map, List.enumFrom_length]
    exact List.enumFrom_map_fst 1 (topPairs sim i)
  · apply List.pairwise_map.mpr
    apply pairwise_and_of
    · exact pairwise_enumFrom_fst_lt 1 _
    · have htp : (topPairs sim i).Pairwise (fun p q => q.2 ≤ p.2) :=
        (topPairs_pairwise_rankLt sim i).imp fun h => by
          rcases h with h | ⟨h, _⟩
          · exact le_of_lt h
          · exact le_of_eq h.symm
      exact pairwise_enumFrom_snd 1 _ htp

/-- Witness for C5 on a concrete 3-entry catalog. -/
theorem migrate_ranks_contiguous_witness :
    (((migrate_similarity_data ["A", "B", "C"]
        [[1, 0, 0], [0, 1, 0], [0, 0, 1]]).filter
        fun r => r.source_movie_id == 0 + 1).map fun r => r.rank)
      = List.range' 1 ((migrate_similarity_data ["A", "B", "C"]
          [[1, 0, 0], [0, 1, 0], [0, 0, 1]]).filter
          fun r => r.source_movie_id == 0 + 1).length ∧
    ((migrate_similarity_data ["A", "B", "C"]
        [[1, 0, 0], [0, 1, 0], [0, 0, 1]]).filter
        fun r => r.source_movie_id == 0 + 1).Pairwise
      fun a b => a.rank < b.rank ∧ b.similarity_score ≤ a.similarity_score :=
  migrate_ranks_contiguous ["A", "B", "C"] [[1, 0, 0], [0, 1, 0], [0, 0, 1]] 0
    (by decide) (by decide) (by decide)

/-- C3: for a unique-title catalog with a well-formed square matrix,
the persisted result that recommend serves for a migrated movie equals
the full list the dense in-memory computation produces for the same
movie — same movies, same order, same rounded scores.  The persisted
Recommendation store receives all of the top-10 slice (the 0.01
materialization threshold of migrate_similarity_matrix applies only to
the separate SimilarityMatrix table, which the read path does not
consult), so the persisted count equals the dense count and the prefix
of length min(K, persisted_count) is the whole list. -/
theorem db_matches_pickle (movies : List String) (sim : List (List ℚ))
    (i : Nat) (hnd : movies.Nodup)
    (hsq : ∀ j, j < movies.length → (simRow sim j).length = movies.length)
    (hi : i < movies.length) :
    recommend_movies_db movies (migrate_similarity_data movies sim) (i + 1)
      = recommend_movies_pickle movies sim i := by
  rw [recommend_movies_db, db_recommendations_migrate movies sim i hnd hsq hi,
    List.map_map, recommend_movies_pickle_eq_map]
  exact enumFrom_map_snd_comp
    (fun p => (movies.getD p.1 "", roundTo4 p.2)) 1 (topPairs sim i)

/-- Witness for C3 on a concrete 3-entry catalog. -/
theorem db_matches_pickle_witness :
    recommend_movies_db ["A", "B", "C"]
        (migrate_similarity_data ["A", "B", "C"]
          [[1, 0, 0], [0, 1, 0], [0, 0, 1]]) (0 + 1)
      = recommend_movies_pickle ["A", "B", "C"]
          [[1, 0, 0], [0, 1, 0], [0, 0, 1]] 0 :=
  db_matches_pickle ["A", "B", "C"] [[1, 0, 0], [0, 1, 0], [0, 0, 1]] 0
    (by decide) (by decide) (by decide)

/-- C2: ordering of every recommendation list.  First conjunct: the
sorted slice behind the dense path is strictly ordered — scores
non-increasing, and among equal full-precision scores the smaller
original matrix index comes first (Python's stable sort keeps the
ascending enumerate order on ties).  Second conjunct: the returned
(title, rounded score) items of the dense path have non-increasing
scores.  Third conjunct: the rows served by the persisted path have
non-increasing scores and, on equal scores, ascending recommended
movie id (id = original index + 1). -/
theorem recommendation_ordering (movies : List String) (sim : List (List ℚ))
    (i : Nat) (hnd : movies.Nodup)
    (hsq : ∀ j, j < movies.length → (simRow sim j).length = movies.length)
    (hi : i < movies.length) :
    (topPairs sim i).Pairwise
        (fun a b => b.2 ≤ a.2 ∧ (a.2 = b.2 → a.1 < b.1)) ∧
    (recommend_movies_pickle movies sim i).Pairwise (fun a b => b.2 ≤ a.2) ∧
    (db_recommendations (migrate_similarity_data movies sim) (i + 1)).Pairwise
        (fun a b => b.similarity_score ≤ a.similarity_score ∧
          (a.similarity_score = b.similarity_score →
            a.recommended_movie_id < b.recommended_movie_id)) := by
  have hbase : (topPairs sim i).Pairwise
      (fun a b => b.2 ≤ a.2 ∧ (a.2 = b.2 → a.1 < b.1)) := by
    refine (topPairs_pairwise_rankLt sim i).imp ?_
    intro a b h
    rcases h with h | ⟨h, hk⟩
    · exact ⟨le_of_lt h, fun heq => (lt_irrefl _ (heq ▸ h)).elim⟩
    · exact ⟨le_of_eq h.symm, fun _ => hk⟩
  refine ⟨hbase, ?_, ?_⟩
  · rw [recommend_movies_pickle_eq_map]
    apply List.pairwise_map.mpr
    exact hbase.imp fun h => roundTo4_mono h.1
  · rw [db_recommendations_migrate movies sim i hnd hsq hi]
    apply List.pairwise_map.mpr
    have hlift : (List.enumFrom 1 (topPairs sim i)).Pairwise
        fun q p => rankLt q.2 p.2 :=
      pairwise_enumFrom_snd 1 _ (topPairs_pairwise_rankLt sim i)
    refine hlift.imp ?_
    intro a b h
    show b.2.2 ≤ a.2.2 ∧ (a.2.2 = b.2.2 → a.2.1 + 1 < b.2.1 + 1)
    rcases h with h | ⟨h, hk⟩
    · exact ⟨le_of_lt h, fun heq => (lt_irrefl _ (heq ▸ h)).elim⟩
    · exact ⟨le_of_eq h.symm, fun _ => by omega⟩

/-- Witness for C2 on a concrete 3-entry catalog with a score tie. -/
theorem recommendation_ordering_witness :
    (topPairs [[1, 0, 0], [0, 1, 0], [0, 0, 1]] 0).Pairwise
        (fun a b => b.2 ≤ a.2 ∧ (a.2 = b.2 → a.1 < b.1)) ∧
    (recommend_movies_pickle ["A", "B", "C"]
        [[1, 0, 0], [0, 1, 0], [0, 0, 1]] 0).Pairwise (fun a b => b.2 ≤ a.2) ∧
    (db_recommendations (migrate_similarity_data ["A", "B", "C"]
        [[1, 0, 0], [0, 1, 0], [0, 0, 1]]) (0 + 1)).Pairwise
        (fun a b => b.similarity_score ≤ a.similarity_score ∧
          (a.similarity_score = b.similarity_score →
            a.recommended_movie_id < b.recommended_movie_id)) :=
  recommendation_ordering ["A", "B", "C"] [[1, 0, 0], [0, 1, 0], [0, 0, 1]] 0
    (by decide) (by decide) (by decide)

/-- SimilarityMatrix row of models.py (the columns the claims are
about: the two movie ids and the stored score). -/
structure SimilarityMatrixRow where
  movie1_id : Nat
  movie2_id : Nat
  similarity_score : ℚ
deriving DecidableEq, Repr

/-- Inner loop of migrate_similarity_matrix (migrate_data.py lines
169-211) for a fixed outer index i: iterate j over all catalog
indices; `if i >= j: continue` skips duplicates and self-pairs; both
titles are resolved through the id map and the pair is skipped when
either is missing; the pair is skipped when a (movie1, movie2) row
already exists (autoflush); finally the pair is stored only when
`similarity_score > 0.01`.  Returns the created rows in creation order
and the updated set of stored (movie1, movie2) id pairs. -/
def simLoopJ (movies : List String) (sim : List (List ℚ)) (i : Nat) :
    List Nat → List (Nat × Nat) → List SimilarityMatrixRow × List (Nat × Nat)
  | [], existing => ([], existing)
  | j :: js, existing =>
    if j ≤ i then simLoopJ movies sim i js existing
    else
      match movieIdMap movies (movies.getD i ""),
          movieIdMap movies (movies.getD j "") with
      | some m1, some m2 =>
        if (m1, m2) ∈ existing then simLoopJ movies sim i js existing
        else if 1 / 100 < simEntry sim i j then
          let out := simLoopJ movies sim i js ((m1, m2) :: existing)
          (⟨m1, m2, simEntry sim i j⟩ :: out.1, out.2)
        else simLoopJ movies sim i js existing
      | _, _ => simLoopJ movies sim i js existing

/-- Outer loop of migrate_similarity_matrix over the catalog indices. -/
def simLoopI (movies : List String) (sim : List (List ℚ)) :
    List Nat → List (Nat × Nat) → List SimilarityMatrixRow
  | [], _ => []
  | i :: rest, existing =>
    let out := simLoopJ movies sim i (List.range movies.length) existing
    out.1 ++ simLoopI movies sim rest out.2

/-- migrate_similarity_matrix (migrate_data.py lines 159-221) run
against a database freshly populated by migrate_movies (the
similarity_matrix table starts empty): the list of SimilarityMatrix
rows it commits, in creation order. -/
def migrate_similarity_matrix (movies : List String) (sim : List (List ℚ)) :
    List SimilarityMatrixRow :=
  simLoopI movies sim (List.range movies.length) []

theorem simLoopJ_existing_mem (movies : List String) (sim : List (List ℚ))
    (i : Nat) (js : List Nat) (existing : List (Nat × Nat)) (p : Nat × Nat)
    (hnd : movies.Nodup) (hi : i < movies.length)
    (hp : p ∈ (simLoopJ movies sim i js existing).2) :
    p.1 = i + 1 ∨ p ∈ existing := by
  induction js generalizing existing with
  | nil => exact Or.inr hp
  | cons j js ih =>
    by_cases hji : j ≤ i
    · rw [simLoopJ, if_pos hji] at hp
      exact ih existing hp
    · rw [simLoopJ, if_neg hji, movieIdMap_getD movies i hnd hi] at hp
      rcases h2 : movieIdMap movies (movies.getD j "") with _ | m2
      · rw [h2] at hp
        exact ih existing hp
      · rw [h2] at hp
        dsimp only at hp
        by_cases hmem : (i + 1, m2) ∈ existing
        · rw [if_pos hmem] at hp
          exact ih existing hp
        · rw [if_neg hmem] at hp
          by_cases hth : 1 / 100 < simEntry sim i j
          · rw [if_pos hth] at hp
            rcases ih _ hp with h | h
            · exact Or.inl h
            · rcases List.mem_cons.mp h with rfl | h
              · exact Or.inl rfl
              · exact Or.inr h
          · rw [if_neg hth] at hp
            exact ih existing hp

theorem simLoopJ_eq (movies : List String) (sim : List (List ℚ)) (i : Nat)
    (js : List Nat) (existing : List (Nat × Nat))
    (hnd : movies.Nodup) (hi : i < movies.length)
    (hjs : ∀ j ∈ js, j < movies.length)
    (hjnd : js.Nodup)
    (hex : ∀ j ∈ js, i < j → (i + 1, j + 1) ∉ existing) :
    (simLoopJ movies sim i js existing).1
      = js.filterMap fun j =>
          if j ≤ i then none
          else if 1 / 100 < simEntry sim i j then
            some ⟨i + 1, j + 1, simEntry sim i j⟩
          else none := by
  induction js generalizing existing with
  | nil => rfl
  | cons j js ih =>
    rcases List.nodup_cons.mp hjnd with ⟨hjh, hjt⟩
    have hjlt : j < movies.length := hjs j (List.mem_cons_self _ _)
    by_cases hji : j ≤ i
    · rw [simLoopJ, if_pos hji,
        List.filterMap_cons_none (by rw [if_pos hji])]
      exact ih existing (fun a ha => hjs a (List.mem_cons_of_mem _ ha)) hjt
        (fun a ha hlt => hex a (List.mem_cons_of_mem _ ha) hlt)
    · have hilt : i < j := not_le.mp hji
      rw [simLoopJ, if_neg hji, movieIdMap_getD movies i hnd hi,
        movieIdMap_getD movies j hnd hjlt]
      dsimp only
      rw [if_neg (hex j (List.mem_cons_self _ _) hilt)]
      by_cases hth : 1 / 100 < simEntry sim i j
      · rw [if_pos hth,
          List.filterMap_cons_some (by rw [if_neg hji, if_pos hth])]
        dsimp only
        congr 1
        apply ih ((i + 1, j + 1) :: existing)
          (fun a ha => hjs a (List.mem_cons_of_mem _ ha)) hjt
        intro a ha hlt hmem
        rcases List.mem_cons.mp hmem with heq | hmem2
        · have : a = j := by
            have := congrArg Prod.snd heq
            omega
          exact hjh (this ▸ ha)
        · exact hex a (List.mem_cons_of_mem _ ha) hlt hmem2
      · rw [if_neg hth,
          List.filterMap_cons_none (by rw [if_neg hji, if_neg hth])]
        exact ih existing (fun a ha => hjs a (List.mem_cons_of_mem _ ha)) hjt
          (fun a ha hlt => hex a (List.mem_cons_of_mem _ ha) hlt)

theorem simLoopI_eq (movies : List String) (sim : List (List ℚ))
    (hnd : movies.Nodup) (is : List Nat) (existing : List (Nat × Nat))
    (his : ∀ i ∈ is, i < movies.length)
    (hind : is.Nodup)
    (hex : ∀ p ∈ existing, ∀ i ∈ is, p.1 ≠ i + 1) :
    simLoopI movies sim is existing
      = is.flatMap fun i => (List.range movies.length).filterMap fun j =>
          if j ≤ i then none
          else if 1 / 100 < simEntry sim i j then
            some ⟨i + 1, j + 1, simEntry sim i j⟩
          else none := by
  induction is generalizing existing with
  | nil => rfl
  | cons i rest ih =>
    rcases List.nodup_cons.mp hind with ⟨hihd, hitl⟩
    have hi : i < movies.length := his i (List.mem_cons_self _ _)
    rw [simLoopI, List.flatMap_cons,
      simLoopJ_eq movies sim i (List.range movies.length) existing hnd hi
        (fun j hj => List.mem_range.mp hj) (List.nodup_range _)
        (fun j hj hlt hmem => hex _ hmem i (List.mem_cons_self _ _) rfl)]
    congr 1
    apply ih
    · exact fun j hj => his j (List.mem_cons_of_mem _ hj)
    · exact hitl
    · intro p hp j hj
      rcases simLoopJ_existing_mem movies sim i (List.range movies.length)
          existing p hnd hi hp with h1 | h1
      · rw [h1]
        intro hc
        have : j = i := by omega
        exact hihd (this ▸ hj)
      · exact hex p h1 j (List.mem_cons_of_mem _ hj)

theorem migrate_similarity_matrix_eq (movies : List String)
    (sim : List (List ℚ)) (hnd : movies.Nodup) :
    migrate_similarity_matrix movies sim
      = (List.range movies.length).flatMap
          fun i => (List.range movies.length).filterMap fun j =>
            if j ≤ i then none
            else if 1 / 100 < simEntry sim i j then
              some ⟨i + 1, j + 1, simEntry sim i j⟩
            else none := by
  apply simLoopI_eq movies sim hnd
  · exact fun i hi => List.mem_range.mp hi
  · exact List.nodup_range _
  · intro p hp
    cases hp

/-- C6: for a unique-title catalog, the migration pass writes a pair
(i, j) with i < j into the persisted sparse similarity relation
(SimilarityMatrix table) if and only if its score is strictly greater
than 0.01; the live dense-matrix path applies no such threshold — any
pair occupying one of the sliced positions 1..10 of the sorted row
appears in the pickle-path result even when its score is at most
0.01. -/
theorem materialization_threshold (movies : List String) (sim : List (List ℚ))
    (i j : Nat) (hnd : movies.Nodup) (hij : i < j) (hj : j < movies.length) :
    ((∃ r ∈ migrate_similarity_matrix movies sim,
        r.movie1_id = i + 1 ∧ r.movie2_id = j + 1)
      ↔ 1 / 100 < simEntry sim i j) ∧
    (∀ idx k, 1 ≤ k → k ≤ 10 → ∀ hk : k < (sortedSims sim idx).length,
      ((sortedSims sim idx).get ⟨k, hk⟩).2 ≤ 1 / 100 →
      (movies.getD ((sortedSims sim idx).get ⟨k, hk⟩).1 "",
        roundTo4 ((sortedSims sim idx).get ⟨k, hk⟩).2)
        ∈ recommend_movies_pickle movies sim idx) := by
  constructor
  · rw [migrate_similarity_matrix_eq movies sim hnd]
    constructor
    · rintro ⟨r, hr, hr1, hr2⟩
      rcases List.mem_flatMap.mp hr with ⟨a, _, hrchunk⟩
      rcases List.mem_filterMap.mp hrchunk with ⟨b, _, hsome⟩
      by_cases h1 : b ≤ a
      · rw [if_pos h1] at hsome
        simp at hsome
      · rw [if_neg h1] at hsome
        by_cases h2 : 1 / 100 < simEntry sim a b
        · rw [if_pos h2] at hsome
          have hrval := Option.some.inj hsome
          have ha : a = i := by
            have := congrArg SimilarityMatrixRow.movie1_id hrval
            dsimp only at this
            rw [hr1] at this
            omega
          have hb : b = j := by
            have := congrArg SimilarityMatrixRow.movie2_id hrval
            dsimp only at this
            rw [hr2] at this
            omega
          rw [ha, hb] at h2
          exact h2
        · rw [if_neg h2] at hsome
          simp at hsome
    · intro hth
      refine ⟨⟨i + 1, j + 1, simEntry sim i j⟩, ?_, rfl, rfl⟩
      apply List.mem_flatMap.mpr
      refine ⟨i, List.mem_range.mpr (by omega), ?_⟩
      apply List.mem_filterMap.mpr
      refine ⟨j, List.mem_range.mpr hj, ?_⟩
      rw [if_neg (not_le.mpr hij), if_pos hth]
  · intro idx k hk1 hk10 hk hscore
    obtain ⟨m, rfl⟩ : ∃ m, k = m + 1 := ⟨k - 1, by omega⟩
    have hm : m < (topPairs sim idx).length := by
      rw [length_topPairs]
      have := length_sortedSims sim idx
      omega
    have hget : (topPairs sim idx)[m] = (sortedSims sim idx).get ⟨m + 1, hk⟩ := by
      show (((sortedSims sim idx).drop 1).take 10)[m] = _
      rw [List.getElem_take, List.getElem_drop]
      simp only [List.get_eq_getElem, Nat.add_comm]
    have hmem : (sortedSims sim idx).get ⟨m + 1, hk⟩ ∈ topPairs sim idx :=
      hget ▸ List.getElem_mem hm
    rw [recommend_movies_pickle_eq_map]
    exact List.mem_map_of_mem _ hmem

/-- Witness for C6 on a concrete 3-entry catalog where the (0, 2) pair
scores 1/200 (below the threshold): the stored-iff-above-threshold
equivalence and the dense no-threshold property, instantiated. -/
theorem materialization_threshold_witness :
    ((∃ r ∈ migrate_similarity_matrix ["A", "B", "C"]
        [[1, 1/2, 1/200], [1/2, 1, 1/5], [1/200, 1/5, 1]],
        r.movie1_id = 0 + 1 ∧ r.movie2_id = 2 + 1)
      ↔ 1 / 100 < simEntry [[1, 1/2, 1/200], [1/2, 1, 1/5], [1/200, 1/5, 1]] 0 2) ∧
    (∀ idx k, 1 ≤ k → k ≤ 10 →
      ∀ hk : k < (sortedSims [[1, 1/2, 1/200], [1/2, 1, 1/5], [1/200, 1/5, 1]] idx).length,
      ((sortedSims [[1, 1/2, 1/200], [1/2, 1, 1/5], [1/200, 1/5, 1]] idx).get ⟨k, hk⟩).2 ≤ 1 / 100 →
      (["A", "B", "C"].getD
          ((sortedSims [[1, 1/2, 1/200], [1/2, 1, 1/5], [1/200, 1/5, 1]] idx).get ⟨k, hk⟩).1 "",
        roundTo4 ((sortedSims [[1, 1/2, 1/200], [1/2, 1, 1/5], [1/200, 1/5, 1]] idx).get ⟨k, hk⟩).2)
        ∈ recommend_movies_pickle ["A", "B", "C"]
            [[1, 1/2, 1/200], [1/2, 1, 1/5], [1/200, 1/5, 1]] idx) :=
  materialization_threshold ["A", "B", "C"]
    [[1, 1/2, 1/200], [1/2, 1, 1/5], [1/200, 1/5, 1]] 0 2
    (by decide) (by norm_num) (by norm_num)

/-- The JSON payload of the persisted branch of recommend_movies
(app.py lines 148-152). -/
structure RecommendResponse where
  selected_movie : String
  recommendations : List (String × ℚ)
  source : String
deriving DecidableEq, Repr

/-- Embedding of the persisted branch of the request handler including
its analytics side effect (app.py lines 127-152).  The recommendation
items are assembled first (lines 128-133); the RecommendationHistory
insert and commit are then attempted inside try/except (lines
136-146): when the write raises — modelled by analyticsOk = false —
the handler logs a warning and falls through, so the history table is
left unchanged; either way execution continues to the same
jsonify(...) of the already-built items (lines 148-152).  The result
is the response together with the analytics history table (the list of
source ids recorded). -/
def handle_db_recommendation (movies : List String) (rows : List RecRow)
    (srcId : Nat) (selected : String) (analyticsOk : Bool)
    (history : List Nat) : RecommendResponse × List Nat :=
  let recommendations := recommend_movies_db movies rows srcId
  let newHistory := if analyticsOk then history ++ [srcId] else history
  (⟨selected, recommendations, "database"⟩, newHistory)

/-- C7: a failure of the analytics-history write leaves the returned
recommendation response unchanged — the response is identical whether
the write succeeds or fails, and the failure is swallowed by the
except block rather than surfaced to the caller. -/
theorem analytics_failure_transparent (movies : List String)
    (rows : List RecRow) (srcId : Nat) (selected : String)
    (history : List Nat) :
    (handle_db_recommendation movies rows srcId selected true history).1
      = (handle_db_recommendation movies rows srcId selected false history).1 :=
  rfl

/-- Movie row of models.py restricted to the columns involved in
migrate_movies' duplicate check and inserts (title plus the tags
payload; the other copied columns play no role in any claim). -/
structure MovieRow where
  title : String
  tags : String
deriving DecidableEq, Repr

/-- migrate_movies (migrate_data.py lines 37-83): iterate the catalog
in order; skip an entry when a Movie with the same title already
exists (`Movie.query.filter_by(title=row['title']).first()` —
SQLAlchemy autoflush makes rows added earlier in the same run visible
to this query); otherwise append a new Movie row.  Batched commits do
not change the final table contents.  The first argument is the table
contents before the run. -/
def migrate_movies (dbMovies : List MovieRow) (catalog : List MovieRow) :
    List MovieRow :=
  catalog.foldl
    (fun acc entry =>
      if acc.any (fun m => m.title == entry.title) then acc else acc ++ [entry])
    dbMovies

theorem migrate_movies_cons (dbMovies : List MovieRow) (e : MovieRow)
    (catalog : List MovieRow) :
    migrate_movies dbMovies (e :: catalog)
      = migrate_movies
          (if dbMovies.any (fun m => m.title == e.title) then dbMovies
           else dbMovies ++ [e]) catalog := rfl

theorem any_title_step (acc : List MovieRow) (e x : MovieRow)
    (h : acc.any (fun m => m.title == x.title) = true) :
    (if acc.any (fun m => m.title == e.title) then acc
     else acc ++ [e]).any (fun m => m.title == x.title) = true := by
  by_cases hc : acc.any (fun m => m.title == e.title) = true
  · rw [if_pos hc]
    exact h
  · rw [if_neg hc, List.any_append, h]
    rfl

theorem any_title_migrate (catalog : List MovieRow) (acc : List MovieRow)
    (x : MovieRow) (h : acc.any (fun m => m.title == x.title) = true) :
    (migrate_movies acc catalog).any (fun m => m.title == x.title) = true := by
  induction catalog generalizing acc with
  | nil => exact h
  | cons e cat ih =>
    rw [migrate_movies_cons]
    by_cases hc : acc.any (fun m => m.title == e.title) = true
    · rw [if_pos hc]
      exact ih acc h
    · rw [if_neg hc]
      exact ih _ (by rw [List.any_append, h]; rfl)

theorem title_present_after (catalog : List MovieRow) (acc : List MovieRow)
    (e : MovieRow) (he : e ∈ catalog) :
    (migrate_movies acc catalog).any (fun m => m.title == e.title) = true := by
  induction catalog generalizing acc with
  | nil => cases he
  | cons e0 cat ih =>
    rw [migrate_movies_cons]
    rcases List.mem_cons.mp he with rfl | he2
    · apply any_title_migrate
      by_cases hc : acc.any (fun m => m.title == e.title) = true
      · rw [if_pos hc]
        exact hc
      · rw [if_neg hc, List.any_append]
        simp
    · exact ih _ he2

theorem migrate_movies_stable (catalog : List MovieRow) (acc : List MovieRow)
    (h : ∀ e ∈ catalog, acc.any (fun m => m.title == e.title) = true) :
    migrate_movies acc catalog = acc := by
  induction catalog with
  | nil => rfl
  | cons e cat ih =>
    rw [migrate_movies_cons, if_pos (h e (List.mem_cons_self _ _))]
    exact ih fun x hx => h x (List.mem_cons_of_mem _ hx)

/-- C10: the movie-ingestion step is idempotent — running
migrate_movies a second time over the same catalog adds no Movie rows,
because every catalog title already exists in the table after the
first run and an entry whose title exists is skipped, never inserted
or mutated. -/
theorem migrate_movies_idempotent (dbMovies catalog : List MovieRow) :
    migrate_movies (migrate_movies dbMovies catalog) catalog
      = migrate_movies dbMovies catalog :=
  migrate_movies_stable catalog (migrate_movies dbMovies catalog)
    fun e he => title_present_after catalog dbMovies e he
